import Mathlib

/-!
Verification of the legatus-agent relevance pipeline against its design
document.  Each Python function that the claims reference is embedded as
a Lean definition; external collaborators (the sentence-transformer
model, the HTTP client, the SQLite store, the LLM chain) are modelled by
explicit parameters describing their observable outcome, so that every
embedded function is a pure, executable Lean function.
-/

namespace Legatus

/-- Bool test that `needle` occurs contiguously inside `hay`, the model
of the Python substring operator `in`. -/
def substrOf (needle : List Char) : List Char → Bool
  | [] => needle.isEmpty
  | c :: rest => needle.isPrefixOf (c :: rest) || substrOf needle rest

namespace Vigil

/-- An article dictionary as handled by `vigil.filter_articles`
(src/legatus_ai/vigil.py).  The `link` key may be missing (`none`) or
hold the empty string; `relevance_score` is attached by the filter.
Cosine-similarity scores are modelled as rationals. -/
structure Article where
  title : String
  summary : String
  link : Option String
  relevance_score : Option ℚ
deriving DecidableEq

/-- Line 86 of vigil.py: `article['relevance_score'] = score`. -/
def setScore (a : Article) (s : ℚ) : Article := { a with relevance_score := some s }

/-- Lines 82-89 of vigil.py: keep an article exactly when its cosine
score is at least the threshold (`score >= similarity_threshold`),
attaching the score to kept articles. -/
def thresholdKeep (pairs : List (Article × ℚ)) (t : ℚ) : List Article :=
  match pairs with
  | [] => []
  | (a, s) :: rest =>
      if t ≤ s then setScore a s :: thresholdKeep rest t else thresholdKeep rest t

/-- Whether `article.get('link')` is truthy in Python: the key is
present and the value is a non-empty string. -/
def hasLink (a : Article) : Bool :=
  match a.link with
  | some l => !(l == "")
  | none => false

/-- Lines 93-99 of vigil.py: build `unique_articles_map` and take its
values.  An article enters the map only if its link is truthy and not
seen before; insertion order of first occurrences is preserved.  `seen`
accumulates the keys already in the map. -/
def dedupByLink : List Article → List String → List Article
  | [], _ => []
  | a :: rest, seen =>
    match a.link with
    | some l =>
        if l = "" then dedupByLink rest seen
        else if seen.contains l = true then dedupByLink rest seen
        else a :: dedupByLink rest (l :: seen)
    | none => dedupByLink rest seen

/-- `vigil.filter_articles` (vigil.py lines 36-103).  The embedding is
parametric in what the external collaborators produce: `ctx_embedding`
is `context.get('embedding')` (`none` when the key is missing),
`model_load_ok` records whether `_get_embedding_model` succeeded, and
`cosine_scores` is the score list `util.cos_sim` returns for the
articles, in article order. -/
def filter_articles (articles : List Article) (ctx_embedding : Option (List ℚ))
    (model_load_ok : Bool) (cosine_scores : List ℚ) (threshold : ℚ) : List Article :=
  if articles.isEmpty then []
  else
    match ctx_embedding with
    | none => articles
    | some _ =>
      if model_load_ok then
        dedupByLink (thresholdKeep (articles.zip cosine_scores) threshold) []
      else articles

/-- Spec-side threshold stage, written from the spec's words: "keep
items with similarity ≥ a configured threshold (inclusive boundary);
record the similarity as relevanceScore on kept items". -/
def keptSpec (articles : List Article) (scores : List ℚ) (t : ℚ) : List Article :=
  ((articles.zip scores).filter fun p => t ≤ p.2).map fun p => setScore p.1 p.2

/-- Spec-side deduplication, written from the spec's words: "deduplicate
by link, keeping the first occurrence in iteration order and discarding
later duplicates". -/
def dedupSpec : List Article → List (Option String) → List Article
  | [], _ => []
  | a :: rest, seen =>
    if seen.contains a.link = true then dedupSpec rest seen
    else a :: dedupSpec rest (a.link :: seen)

/-- Spec-side description of the whole filter on the success path:
threshold-keep with scores attached, then first-occurrence
deduplication by link. -/
def vigilSpec (articles : List Article) (scores : List ℚ) (t : ℚ) : List Article :=
  dedupSpec (keptSpec articles scores t) []


/-- First witness candidate, similarity 0.8. -/
def wa1 : Article := ⟨"A1", "S1", some "http://a.example/1", none⟩

/-- Second witness candidate, similarity 0.2. -/
def wa2 : Article := ⟨"A2", "S2", some "http://b.example/2", none⟩

/-- Third witness candidate, similarity 0.5. -/
def wa3 : Article := ⟨"A3", "S3", some "http://c.example/3", none⟩

end Vigil

namespace Archivum

/-- A value found under `analysis['criticality_score']` in an analysis
result: either something Python `int()` converts (modelled by the
integer it yields) or a value on which `int()` raises
`ValueError`/`TypeError`. -/
inductive ScoreVal
  | intLike (n : Int)
  | nonNumeric
deriving DecidableEq

/-- An analysis-result dictionary as consumed by
`add_articles_to_archive` (archivum.py lines 64-99).  All access there
is via `.get`, so every field may be missing. -/
structure AnalysisResult where
  link : Option String
  title : Option String
  criticality_score : Option ScoreVal
deriving DecidableEq

/-- One persisted row of the `articles` table (schema at archivum.py
lines 8-15): `link TEXT PRIMARY KEY`, `title TEXT NOT NULL`,
`criticality_score INTEGER` (nullable). -/
structure SeenRow where
  link : Option String
  title : Option String
  criticality_score : Option Int
deriving DecidableEq

/-- The persistent store: the rows of the `articles` table in insertion
order. -/
abbrev Archive := List SeenRow

/-- Lines 79-83 of archivum.py: `int(score) if score is not None else
None`, with `ValueError`/`TypeError` mapped to `None`. -/
def toCriticality : Option ScoreVal → Option Int
  | none => none
  | some (.intLike n) => some n
  | some .nonNumeric => none

/-- The `(link, title, criticality_score)` tuple built for one result
(archivum.py lines 85-89). -/
def rowOf (r : AnalysisResult) : SeenRow :=
  ⟨r.link, r.title, toCriticality r.criticality_score⟩

/-- Whether the table holds a row whose `link` column equals the
string `l`.  SQL equality never matches a stored NULL link. -/
def archiveHasLink (ar : Archive) (l : String) : Bool :=
  ar.any fun row => row.link == some l

/-- Insertion of one parameter row of the `INSERT OR IGNORE` statement
(archivum.py line 94), following SQLite semantics for the schema above:
a row violating `title NOT NULL` is skipped silently by `OR IGNORE`; a
row whose non-NULL link is already present is skipped silently by the
primary-key constraint; rows with a NULL link always insert, because
SQLite treats NULL primary keys as pairwise distinct. -/
def insertIgnore (ar : Archive) (row : SeenRow) : Archive :=
  if row.title = none then ar
  else
    match row.link with
    | some l => if archiveHasLink ar l = true then ar else ar ++ [row]
    | none => ar ++ [row]

/-- `archivum.add_articles_to_archive` (archivum.py lines 64-99),
assuming the write connection succeeds.  The empty-batch early return
(line 73) coincides with folding over the empty list. -/
def add_articles_to_archive (ar : Archive) (results : List AnalysisResult) : Archive :=
  results.foldl (fun acc r => insertIgnore acc (rowOf r)) ar

/-- A candidate dictionary as consumed by `filter_new_articles`
(archivum.py lines 102-137), which touches only the `'link'` key.
`link = none` models a dictionary without the key, `link = some none`
models `'link': None`, and `link = some (some l)` a string link. -/
structure Candidate where
  link : Option (Option String)
deriving DecidableEq

/-- Whether the candidate has a `'link'` key holding a string. -/
def hasStrLink (c : Candidate) : Bool :=
  match c.link with
  | some (some _) => true
  | _ => false

/-- Lines 132-134 of archivum.py: the final comprehension subscripts
`article['link']`, raising `KeyError` (modelled `.error ()`) as soon as
an article lacks the key; a `None` link is never in the set of existing
string links, so such an article is kept. -/
def keepNew (existing : List String) : List Candidate → Except Unit (List Candidate)
  | [] => .ok []
  | c :: rest =>
    match c.link with
    | none => .error ()
    | some lv =>
      (keepNew existing rest).map fun r =>
        match lv with
        | none => c :: r
        | some l => if existing.contains l = true then r else c :: r

/-- `archivum.filter_new_articles` (archivum.py lines 102-137).
`read_ok` records whether the `SELECT` succeeded; on a read failure the
function fails open and returns its input unchanged (lines 128-130).
`links_to_check` models the set built on line 116; `existing` models
the rows the `WHERE link IN (...)` query returns: the checked string
links present in the table (a NULL in the IN-list or in the table never
matches). -/
def filter_new_articles (ar : Archive) (read_ok : Bool) (articles : List Candidate) :
    Except Unit (List Candidate) :=
  if articles.isEmpty then .ok []
  else if (articles.filterMap fun c => c.link).isEmpty then .ok []
  else if read_ok then
    keepNew
      (((articles.filterMap fun c => c.link).filterMap id).filter fun l => archiveHasLink ar l)
      articles
  else .ok articles

/-- Whether a candidate survives the archive check against store `ar`:
its string link is absent from the store (candidates with a missing or
`None` link are never filtered out by the comprehension). -/
def candidateNew (ar : Archive) (c : Candidate) : Bool :=
  match c.link with
  | some (some l) => !(archiveHasLink ar l)
  | _ => true

/-- The candidate dictionary carrying the same `'link'` value as an
analysis result (the key is present whenever the record was built by
the pipeline). -/
def candidateOf (r : AnalysisResult) : Candidate := ⟨some r.link⟩

/-- Whether an analysis result carries both a link and a title, as
every AnalysisRecord of the data model does. -/
def resultComplete (r : AnalysisResult) : Bool := r.link.isSome && r.title.isSome

/-- Whether the result-s link is already recorded in the store. -/
def recordSeen (ar : Archive) (r : AnalysisResult) : Bool :=
  match r.link with
  | some l => archiveHasLink ar l
  | none => false

/-- Counterexample input for C2: an analysis record with a link but no
title. -/
def noTitleResult : AnalysisResult := ⟨some "http://a.com", none, none⟩

/-- The candidate carrying the counterexample record-s link. -/
def noTitleCandidate : Candidate := ⟨some (some "http://a.com")⟩

/-- Witness record for the archive claims. -/
def wRes : AnalysisResult := ⟨some "http://a.com", some "T", some (.intLike 5)⟩

/-- Witness store already holding the witness record-s link. -/
def wArchive : Archive := [⟨some "http://a.com", some "T0", none⟩]

end Archivum

namespace Scout

/-- One element of `entry.content`, a list of rich-content objects each
holding an HTML `value` (scout.py line 28). -/
structure ContentItem where
  value : String
deriving DecidableEq

/-- A feed entry as seen by `fetch_from_rss_async` and
`_extract_summary` (scout.py lines 19-43 and 71-87).  Optional fields
model attributes the entry may lack; `published` is the instant parsed
from `published_parsed` (`none` when absent or falsy); `tags` holds
`tag.term` for each tag object (`none` when the tag lacks `term`). -/
structure Entry where
  title : String
  link : String
  content : Option (List ContentItem)
  summary : Option String
  description : Option String
  published : Option Int
  tags : List (Option String)
deriving DecidableEq

/-- Python `(text[:400] + '...') if len(text) > 400 else text`
(scout.py line 33); slicing counts code points, i.e. `List Char`
elements. -/
def truncate400 (s : String) : String :=
  if s.length > 400 then String.mk (s.data.take 400) ++ "..." else s

/-- Lines 40-43 of scout.py: return `entry.description` when present
and truthy, else the empty string. -/
def descFallback (e : Entry) : String :=
  match e.description with
  | some d => d
  | none => ""

/-- Lines 37-43 of scout.py: return `entry.summary` when present and
truthy, else fall through to the description. -/
def summaryFallback (e : Entry) : String :=
  match e.summary with
  | some s => if s ≠ "" then s else descFallback e
  | none => descFallback e

/-- `scout._extract_summary` (scout.py lines 19-43), parametric in the
external `BeautifulSoup(html).get_text(separator=' ', strip=True)`
markup stripper.  Only the rich-content branch strips markup and
truncates; `summary` and `description` are returned verbatim. -/
def _extract_summary (strip : String → String) (e : Entry) : String :=
  match e.content with
  | some (c :: _) =>
      if strip c.value ≠ "" then truncate400 (strip c.value) else summaryFallback e
  | _ => summaryFallback e

/-- The branch `_extract_summary` takes: `some text` when the entry has
truthy rich content whose stripped text is non-empty (the text used),
`none` when the summary/description fallback applies. -/
def contentText (strip : String → String) (e : Entry) : Option String :=
  match e.content with
  | some (c :: _) =>
      if strip c.value ≠ "" then some (strip c.value) else none
  | _ => none

/-- A normalized candidate article produced by the Scout fetchers
(scout.py lines 79-86 and 124-131). -/
structure ScoutArticle where
  title : String
  link : String
  published : Int
  summary : String
  tags : List String
  source : String
deriving DecidableEq

/-- Coarse model of stdlib `urllib.parse.urljoin`: an absolute entry
link is kept, a relative one is appended to the feed URL.  No claim
depends on its exact value. -/
def urljoin (base rel : String) : String :=
  if substrOf ("://".data) rel.data then rel else base ++ rel

/-- Lines 71-87 of scout.py: keep an entry only when it has a parsed
publish time at or after the cutoff, building the article
dictionary. -/
def entryArticle (strip : String → String) (cutoff : Int) (src : String) (e : Entry) :
    Option ScoutArticle :=
  match e.published with
  | some ptime =>
      if cutoff ≤ ptime then
        some ⟨e.title, urljoin src e.link, ptime, _extract_summary strip e,
          (e.tags.filterMap id).map fun t => t.toLower, "RSS"⟩
      else none
  | none => none

/-- A parsed syndication feed: `bozo` is feedparser-s malformed-feed
flag (scout.py line 65). -/
structure Feed where
  bozo : Bool
  entries : List Entry
deriving DecidableEq

/-- Observable outcome of the HTTP fetch plus feed parse for one RSS
source: the exception kinds caught on scout.py lines 92-97, or a parsed
feed. -/
inductive RssOutcome
  | timeoutErr
  | clientErr
  | fetched (feed : Feed)
deriving DecidableEq

/-- `scout.fetch_from_rss_async` (scout.py lines 45-98): timeouts,
network errors, and the malformed-feed exception raised on line 66 when
`feed.bozo` is set are all caught by lines 92-97, yielding `[]` for
that source only. -/
def fetch_from_rss (strip : String → String) (cutoff : Int) (src : String)
    (o : RssOutcome) : List ScoutArticle :=
  match o with
  | .timeoutErr => []
  | .clientErr => []
  | .fetched feed =>
      if feed.bozo then []
      else feed.entries.filterMap (entryArticle strip cutoff src)

/-- A release object of the GitHub releases API response (scout.py
lines 116-132).  Two-level options model key absence versus a null
value; `published_at = some none` models a present but unparseable
date string, on which `datetime.fromisoformat` raises. -/
structure Release where
  name : Option String
  tag_name : Option String
  html_url : Option String
  body : Option (Option String)
  published_at : Option (Option Int)
deriving DecidableEq

/-- Line 125 of scout.py: `release.get('name') or
release.get('tag_name', 'N/A')`. -/
def releaseTitle (r : Release) : String :=
  "GitHub Release: " ++
    match r.name with
    | some n => if n ≠ "" then n else (r.tag_name.getD "N/A")
    | none => r.tag_name.getD "N/A"

/-- Line 128 of scout.py: `(release.get('body', 'No release notes.') or
"")[:800] + '...'` — note the ellipsis is appended unconditionally. -/
def releaseSummary (r : Release) : String :=
  String.mk ((match r.body with
    | none => "No release notes."
    | some none => ""
    | some (some b) => b).data.take 800) ++ "..."

/-- Lines 116-132 of scout.py: releases without a truthy
`published_at` are skipped; an unparseable date raises out of the loop
(`none` here), a failure the caller turns into an empty result. -/
def releasesArticles (cutoff : Int) (repo : String) :
    List Release → Option (List ScoutArticle)
  | [] => some []
  | r :: rest =>
    match r.published_at with
    | none => releasesArticles cutoff repo rest
    | some none => none
    | some (some t) =>
      match releasesArticles cutoff repo rest with
      | none => none
      | some arts =>
          if cutoff ≤ t then
            some (⟨releaseTitle r, r.html_url.getD "#", t, releaseSummary r,
              ["github", "release", (repo.splitOn "/").getLastD ""],
              "GitHub Release"⟩ :: arts)
          else some arts

/-- Observable outcome of the releases API call for one repository:
the exception kinds caught on scout.py lines 137-142 (including a
response whose JSON decode raises), or the decoded release list. -/
inductive ReleasesOutcome
  | timeoutErr
  | clientErr
  | badJson
  | fetched (releases : List Release)
deriving DecidableEq

/-- `scout.fetch_from_github_releases_async` (scout.py lines 101-143):
every caught failure yields `[]` for that repository only. -/
def fetch_from_github_releases (cutoff : Int) (repo : String) (o : ReleasesOutcome) :
    List ScoutArticle :=
  match o with
  | .timeoutErr => []
  | .clientErr => []
  | .badJson => []
  | .fetched rels =>
    match releasesArticles cutoff repo rels with
    | some arts => arts
    | none => []

/-- One fetch task submitted by `run_scout_async` (scout.py lines
169-178), together with the observable outcome of its external
interactions. -/
inductive SourceTask
  | rss (src : String) (o : RssOutcome)
  | github (repo : String) (o : ReleasesOutcome)

/-- The articles one gathered task contributes. -/
def runTask (strip : String → String) (cutoff : Int) : SourceTask → List ScoutArticle
  | .rss src o => fetch_from_rss strip cutoff src o
  | .github repo o => fetch_from_github_releases cutoff repo o

/-- `scout.run_scout_async` (scout.py lines 153-184): `asyncio.gather`
returns the per-task result lists in task order and lines 180-181
concatenate them. -/
def run_scout (strip : String → String) (cutoff : Int) (tasks : List SourceTask) :
    List ScoutArticle :=
  (tasks.map (runTask strip cutoff)).flatten

/-- Whether a task-s outcome is one of the contained per-source
failures: timeout, network error, or malformed document (bozo feed or
undecodable JSON). -/
def taskFailed : SourceTask → Bool
  | .rss _ .timeoutErr => true
  | .rss _ .clientErr => true
  | .rss _ (.fetched feed) => feed.bozo
  | .github _ .timeoutErr => true
  | .github _ .clientErr => true
  | .github _ .badJson => true
  | .github _ (.fetched _) => false

/-- Witness task for C5: a healthy RSS source. -/
def wTask1 : SourceTask := .rss "http://a.example/rss" (.fetched ⟨false, []⟩)

/-- Witness task for C5: a healthy releases source. -/
def wTask2 : SourceTask := .github "octo/repo" (.fetched [])

/-- Witness entry for C8: rich content present. -/
def wEntry : Entry := ⟨"T", "http://x/2", some [⟨"<p>hi</p>"⟩], some "sum", none, none, []⟩

/-- Counterexample input for C8: a 500-character summary. -/
def longSummary : String := String.mk (List.replicate 500 'a')

/-- Counterexample entry for C8: no rich content, only the long plain
summary. -/
def longSummaryEntry : Entry :=
  ⟨"T", "http://x/1", none, some longSummary, none, none, []⟩

end Scout

namespace Transport

/-- The two outcomes of `utils.should_verify_ssl_for_url`: the shared
verified SSL context, or `False` (verification disabled). -/
inductive SSLDecision
  | verified
  | unverified
deriving DecidableEq

/-- Characters CPython accepts inside a URL scheme. -/
def isSchemeChar (c : Char) : Bool :=
  c.isAlphanum || c == '+' || c == '-' || c == '.'

/-- Scheme removal of CPython `urlsplit`: when the URL has a colon at
position `i > 0`, its first character is a letter, and everything
before the colon is a scheme character, the scheme and the colon are
dropped; otherwise the URL is unchanged. -/
def dropScheme (cs : List Char) : List Char :=
  match cs.findIdx? fun c => c == ':' with
  | none => cs
  | some i =>
    if 0 < i
        ∧ (cs.take i).all isSchemeChar = true
        ∧ (match cs.head? with | some c => c.isAlpha | none => false) = true then
      cs.drop (i + 1)
    else cs

/-- The `netloc` component CPython `urlparse` returns: after the
scheme, a leading `//` introduces the authority, which extends to the
first `/`, `?` or `#`; mismatched square brackets make `urlparse`
raise `ValueError` (Invalid IPv6 URL), modelled as `.error ()`.  URLs
without `//` have an empty netloc. -/
def parseNetloc (url : String) : Except Unit (List Char) :=
  match dropScheme url.data with
  | '/' :: '/' :: after =>
    match after.takeWhile fun c => !(c == '/' || c == '?' || c == '#') with
    | netloc =>
      if (netloc.contains '[' && !netloc.contains ']')
          || (netloc.contains ']' && !netloc.contains '[') then .error ()
      else .ok netloc
  | _ => .ok []

/-- `utils.should_verify_ssl_for_url` (utils.py lines 31-68): an empty
skip list short-circuits to the verified context (line 48); a URL-parse
failure defaults to verified (lines 55-57); otherwise verification is
disabled exactly when the parsed `netloc` contains any configured skip
substring (line 60). -/
def should_verify_ssl_for_url (url : String) (domains_to_skip : List String) :
    SSLDecision :=
  if domains_to_skip.isEmpty then .verified
  else
    match parseNetloc url with
    | .error _ => .verified
    | .ok domain =>
      if domains_to_skip.any fun d => substrOf d.data domain then .unverified
      else .verified

/-- The `hostname` CPython `urlparse` would report for a netloc: the
part after the last `@`, before the port colon, lowercased. -/
def hostnameOf (netloc : List Char) : List Char :=
  (((netloc.reverse.takeWhile fun c => !(c == '@')).reverse).takeWhile
    fun c => !(c == ':')).map fun c => c.toLower

/-- The host of a URL under the embedded parser (empty on parse
failure). -/
def urlHost (url : String) : List Char :=
  match parseNetloc url with
  | .ok n => hostnameOf n
  | .error _ => []

end Transport

namespace Speculator

/-- A JSON value as produced by `json.loads`, restricted to the shapes
the pipeline exchanges: numbers are modelled as integers. -/
inductive Json
  | null
  | bool (b : Bool)
  | num (n : Int)
  | str (s : String)
  | arr (elems : List Json)
  | obj (fields : List (String × Json))

/-- Python truthiness of a decoded JSON value: `None`, `False`, `0`,
`''`, `[]` and `\x7b\x7d` are falsy, all else truthy. -/
def Json.truthy : Json → Bool
  | .null => false
  | .bool b => b
  | .num n => !(n == 0)
  | .str s => !(s == "")
  | .arr xs => !xs.isEmpty
  | .obj fs => !fs.isEmpty

/-- `dict.get` on a decoded object; duplicate keys follow `json.loads`
semantics (the last occurrence wins).  Non-objects have no fields. -/
def Json.getField (j : Json) (k : String) : Option Json :=
  match j with
  | .obj fs => ((fs.filter fun p => p.1 == k).getLast?).map fun p => p.2
  | _ => none

/-- JSON whitespace accepted between tokens by `json.loads`. -/
def isJsonWs (c : Char) : Bool :=
  match c with
  | ' ' => true
  | '\t' => true
  | '\n' => true
  | '\r' => true
  | _ => false

/-- Single-character JSON string escapes (the `\uXXXX` form is outside
the modelled subset). -/
def unescape (c : Char) : Option Char :=
  match c with
  | '"' => some '"'
  | '\\' => some '\\'
  | '/' => some '/'
  | 'n' => some '\n'
  | 't' => some '\t'
  | 'r' => some '\r'
  | 'b' => some (Char.ofNat 8)
  | 'f' => some (Char.ofNat 12)
  | _ => none

/-- Body of a JSON string after the opening quote: characters up to the
closing quote, decoding the single-character escapes. -/
def parseStrBody (acc : List Char) : List Char → Option (String × List Char)
  | [] => none
  | '"' :: rest => some (String.mk acc.reverse, rest)
  | '\\' :: c :: rest =>
    match unescape c with
    | some ch => parseStrBody (ch :: acc) rest
    | none => none
  | '\\' :: [] => none
  | c :: rest => parseStrBody (c :: acc) rest

/-- Numeric value of a digit run. -/
def digitsVal (ds : List Char) : Nat :=
  ds.foldl (fun a c => a * 10 + (c.toNat - 48)) 0

/-- An integer JSON number: optional minus sign then a digit run
(fractional and exponent forms are outside the modelled subset). -/
def parseNum (cs : List Char) : Option (Int × List Char) :=
  match cs with
  | '-' :: rest =>
    match rest.takeWhile Char.isDigit with
    | [] => none
    | ds => some (-(digitsVal ds : Int), rest.drop ds.length)
  | _ =>
    match cs.takeWhile Char.isDigit with
    | [] => none
    | ds => some ((digitsVal ds : Int), cs.drop ds.length)

mutual

/-- Recursive-descent model of `json.loads` on the subset the pipeline
exchanges (fuel-indexed for termination; `json_loads` supplies ample
fuel). -/
def parseVal : Nat → List Char → Option (Json × List Char)
  | 0, _ => none
  | fuel + 1, cs =>
    match cs.dropWhile isJsonWs with
    | '\x7b' :: rest =>
      match rest.dropWhile isJsonWs with
      | '\x7d' :: r2 => some (.obj [], r2)
      | _ => parseMembers fuel rest []
    | '[' :: rest =>
      match rest.dropWhile isJsonWs with
      | ']' :: r2 => some (.arr [], r2)
      | _ => parseElems fuel rest []
    | '"' :: rest =>
      match parseStrBody [] rest with
      | some (s, r1) => some (.str s, r1)
      | none => none
    | other =>
      if other.take 4 = "true".data then some (.bool true, other.drop 4)
      else if other.take 5 = "false".data then some (.bool false, other.drop 5)
      else if other.take 4 = "null".data then some (.null, other.drop 4)
      else
        match parseNum other with
        | some (n, r1) => some (.num n, r1)
        | none => none

/-- Members of an object after its opening brace (and after any
already-parsed members), accumulating in order. -/
def parseMembers : Nat → List Char → List (String × Json) →
    Option (Json × List Char)
  | 0, _, _ => none
  | fuel + 1, cs, acc =>
    match cs.dropWhile isJsonWs with
    | '"' :: rest =>
      match parseStrBody [] rest with
      | none => none
      | some (k, r1) =>
        match r1.dropWhile isJsonWs with
        | ':' :: r2 =>
          match parseVal fuel r2 with
          | none => none
          | some (v, r3) =>
            match r3.dropWhile isJsonWs with
            | ',' :: r4 => parseMembers fuel r4 (acc ++ [(k, v)])
            | '\x7d' :: r4 => some (.obj (acc ++ [(k, v)]), r4)
            | _ => none
        | _ => none
    | _ => none

/-- Elements of an array after its opening bracket. -/
def parseElems : Nat → List Char → List Json → Option (Json × List Char)
  | 0, _, _ => none
  | fuel + 1, cs, acc =>
    match parseVal fuel cs with
    | none => none
    | some (v, r1) =>
      match r1.dropWhile isJsonWs with
      | ',' :: r2 => parseElems fuel r2 (acc ++ [v])
      | ']' :: r2 => some (.arr (acc ++ [v]), r2)
      | _ => none

end

/-- `json.loads` on a character list: a full parse with only trailing
whitespace allowed. -/
def json_loads (cs : List Char) : Option Json :=
  match parseVal (2 * cs.length + 4) cs with
  | some (v, rest) => if (rest.dropWhile isJsonWs).isEmpty then some v else none
  | none => none

/-- The regex whitespace class `\s` (ASCII subset). -/
def isRegexWs (c : Char) : Bool :=
  match c with
  | ' ' => true
  | '\t' => true
  | '\n' => true
  | '\r' => true
  | _ => c == Char.ofNat 11 || c == Char.ofNat 12

/-- The three-backtick fence token. -/
def fenceChars : List Char := "```".data

/-- The opening tag of a fenced JSON block. -/
def fenceTag : List Char := "```json".data

/-- After a candidate closing brace: `\s*` then a closing fence. -/
def fenceFollows (cs : List Char) : Bool :=
  (cs.dropWhile isRegexWs).take 3 == fenceChars

/-- The non-greedy body scan of the fenced branch: extend the body one
character at a time until a closing brace followed by `\s*` and a
closing fence is found. -/
def scanFencedBody (acc : List Char) : List Char → Option (List Char)
  | [] => none
  | c :: rest =>
    if c == '\x7d' && fenceFollows rest then some ((c :: acc).reverse)
    else scanFencedBody (c :: acc) rest

/-- Attempt of the first regex branch at this position: a literal
fence tag, `\s*`, then the shortest brace-delimited body whose closing
brace is followed by a closing fence. -/
def matchFenced (cs : List Char) : Option (List Char) :=
  if cs.take 7 == fenceTag then
    match cs.drop 7 |>.dropWhile isRegexWs with
    | '\x7b' :: rest => scanFencedBody ['\x7b'] rest
    | _ => none
  else none

/-- The non-greedy body scan of the bare branch: everything up to the
first closing brace. -/
def scanBraceBody (acc : List Char) : List Char → Option (List Char)
  | [] => none
  | c :: rest =>
    if c == '\x7d' then some ((c :: acc).reverse)
    else scanBraceBody (c :: acc) rest

/-- Attempt of the second regex branch at this position: an opening
brace and the shortest body up to a closing brace. -/
def matchBrace (cs : List Char) : Option (List Char) :=
  match cs with
  | '\x7b' :: rest => scanBraceBody ['\x7b'] rest
  | _ => none

/-- `re.search` over the alternation of speculator.py line 70: scan
positions left to right, trying the fenced branch before the bare
branch at each position; the captured group is the brace-delimited
snippet. -/
def searchJson : List Char → Option (List Char)
  | [] => none
  | c :: rest =>
    match matchFenced (c :: rest) with
    | some g => some g
    | none =>
      match matchBrace (c :: rest) with
      | some g => some g
      | none => searchJson rest

/-- `speculator._parse_llm_json_response` (speculator.py lines 55-83):
extract the regex capture, then decode it; any failure gives `none`
(logged, never raised). -/
def _parse_llm_json_response (raw : String) : Option Json :=
  match searchJson raw.data with
  | none => none
  | some snippet => json_loads snippet

/-- The article fields `_analyze_single_article` reads (title, summary,
link are present on every pipeline article reaching the engine). -/
structure SpecArticle where
  title : String
  summary : String
  link : String
deriving DecidableEq

/-- The analysis record built on speculator.py line 117. -/
structure AnalysisRecord where
  title : String
  link : String
  analysis : Json

/-- Observable outcome of `ai_chain.ainvoke`: a raw text response, or a
raised error (caught on speculator.py lines 122-125). -/
inductive ChainOutcome
  | response (raw : String)
  | chainError
deriving DecidableEq

/-- Truthiness of `parsed_json.get('is_relevant')` (absent means
`None`, falsy). -/
def truthyField (j : Json) (k : String) : Bool :=
  match j.getField k with
  | some v => v.truthy
  | none => false

/-- `speculator._analyze_single_article` after slot acquisition
(speculator.py lines 97-125): `fetched` is the content fetch outcome
(`none` on fetch failure, and empty extracted text is normalized to a
discard by lines 45 and 100); the record is produced exactly when the
parsed response is a truthy (non-empty) object whose `is_relevant`
value is truthy; every failure path yields `none` rather than an
error. -/
def _analyze_single_article (art : SpecArticle) (fetched : Option String)
    (chain : ChainOutcome) : Option AnalysisRecord :=
  match fetched with
  | none => none
  | some text =>
    if text == "" then none
    else
      match chain with
      | .chainError => none
      | .response raw =>
        match _parse_llm_json_response raw with
        | none => none
        | some pj =>
          if pj.truthy && truthyField pj "is_relevant" then
            some ⟨art.title, art.link, pj⟩
          else none

/-- Phase of one `_analyze_single_article` task with respect to the
concurrency gate: before `async with semaphore` (speculator.py line
97), holding a slot, or finished (slot released). -/
inductive TaskPhase
  | waiting
  | inflight
  | done
deriving DecidableEq

/-- State of a speculator run: the semaphore counter and the phase of
each of the gathered tasks (speculator.py lines 141-149). -/
structure GateState where
  sem : Nat
  tasks : List TaskPhase
deriving DecidableEq

/-- Initial state: `asyncio.Semaphore(concurrency_limit)` and all `n`
tasks submitted and waiting. -/
def initState (k n : Nat) : GateState := ⟨k, List.replicate n .waiting⟩

/-- Number of tasks currently holding a slot. -/
def inflightCount (s : GateState) : Nat :=
  s.tasks.countP fun p => p == TaskPhase.inflight

/-- Interleaving semantics of the run under `asyncio.Semaphore`:
a waiting task may enter the gate only when the counter is positive
(decrementing it), and a task leaving the `async with` block releases
its slot (incrementing the counter). -/
inductive GateStep : GateState → GateState → Prop
  | acquire (s : GateState) (i : Nat) (hi : s.tasks.get? i = some .waiting)
      (hs : 0 < s.sem) : GateStep s ⟨s.sem - 1, s.tasks.set i .inflight⟩
  | release (s : GateState) (i : Nat) (hi : s.tasks.get? i = some .inflight) :
      GateStep s ⟨s.sem + 1, s.tasks.set i .done⟩

/-- States a run with gate capacity `k` and `n` tasks can reach. -/
def Reachable (k n : Nat) (s : GateState) : Prop :=
  Relation.ReflTransGen GateStep (initState k n) s

end Speculator

end Legatus

namespace Legatus

namespace Vigil

theorem thresholdKeep_eq_filter_map (pairs : List (Article × ℚ)) (t : ℚ) :
    thresholdKeep pairs t = (pairs.filter fun p => t ≤ p.2).map fun p => setScore p.1 p.2 := by
  induction pairs with
  | nil => rfl
  | cons p rest ih =>
    obtain ⟨a, s⟩ := p
    by_cases h : t ≤ s <;> simp [thresholdKeep, List.filter_cons, h, ih]

theorem hasLink_setScore (a : Article) (s : ℚ) : hasLink (setScore a s) = hasLink a := rfl

theorem dedupByLink_eq_dedupSpec :
    ∀ (arts : List Article) (seenS : List String) (seenO : List (Option String)),
      (∀ a ∈ arts, hasLink a = true) →
      (∀ l : String, l ≠ "" → (seenS.contains l = seenO.contains (some l))) →
      dedupByLink arts seenS = dedupSpec arts seenO := by
  intro arts
  induction arts with
  | nil => intro _ _ _ _; rfl
  | cons a rest ih =>
    intro seenS seenO hlink hsee
    have ha : hasLink a = true := hlink a (by simp)
    have hrest : ∀ b ∈ rest, hasLink b = true := fun b hb => hlink b (by simp [hb])
    match hl : a.link with
    | none => simp [hasLink, hl] at ha
    | some l =>
      have hne : l ≠ "" := by
        simpa [hasLink, hl] using ha
      simp only [dedupByLink, dedupSpec, hl]
      rw [if_neg hne]
      by_cases hmem : seenS.contains l = true
      · have hO : seenO.contains (some l) = true := by rw [← hsee l hne]; exact hmem
        rw [if_pos hmem, if_pos hO]
        exact ih seenS seenO hrest hsee
      · have hO : ¬ seenO.contains (some l) = true := by rw [← hsee l hne]; exact hmem
        rw [if_neg hmem, if_neg hO]
        refine congrArg (a :: ·) (ih (l :: seenS) (some l :: seenO) hrest ?_)
        intro x hx
        simp only [List.contains_cons]
        rw [hsee x hx]
        rfl

theorem dedupByLink_sublist : ∀ (arts : List Article) (seen : List String),
    (dedupByLink arts seen).Sublist arts := by
  intro arts
  induction arts with
  | nil => intro _; exact List.Sublist.refl _
  | cons a rest ih =>
    intro seen
    cases hl : a.link with
    | none => simp only [dedupByLink, hl]; exact (ih seen).cons a
    | some l =>
      simp only [dedupByLink, hl]
      by_cases he : l = ""
      · rw [if_pos he]; exact (ih seen).cons a
      · rw [if_neg he]
        by_cases hmem : seen.contains l = true
        · rw [if_pos hmem]; exact (ih seen).cons a
        · rw [if_neg hmem]; exact (ih (l :: seen)).cons₂ a

theorem thresholdKeep_sublist (pairs : List (Article × ℚ)) (t : ℚ) :
    (thresholdKeep pairs t).Sublist (pairs.map fun p => setScore p.1 p.2) := by
  rw [thresholdKeep_eq_filter_map]
  exact (List.filter_sublist _).map _

/-- C1: for every candidate-article list (each candidate carrying a
non-empty link, as the data model requires), a context with an
embedding, and a threshold `t`, `filter_articles` agrees with the
spec-side description — keep exactly the articles whose cosine score
`s` satisfies `s ≥ t` (inclusive boundary), attach `relevance_score = s`
to each kept article, then deduplicate by link keeping first
occurrences — and its output preserves the original relative input
order (it is a sublist of the score-annotated input). -/
theorem filter_articles_threshold_dedup_order
    (articles : List Article) (scores : List ℚ) (e : List ℚ) (t : ℚ)
    (hlink : ∀ a ∈ articles, hasLink a = true)
    (hlen : scores.length = articles.length) :
    filter_articles articles (some e) true scores t = vigilSpec articles scores t
      ∧ (filter_articles articles (some e) true scores t).Sublist
          ((articles.zip scores).map fun p => setScore p.1 p.2) := by
  by_cases hemp : articles.isEmpty
  · rw [List.isEmpty_iff] at hemp
    subst hemp
    constructor
    · rfl
    · simp [filter_articles]
  · have hfa : filter_articles articles (some e) true scores t
        = dedupByLink (thresholdKeep (articles.zip scores) t) [] := by
      rw [filter_articles, if_neg hemp]
      rfl
    constructor
    · rw [hfa, vigilSpec, keptSpec, ← thresholdKeep_eq_filter_map]
      refine dedupByLink_eq_dedupSpec _ [] [] ?_ ?_
      · intro b hb
        rw [thresholdKeep_eq_filter_map] at hb
        obtain ⟨p, hp, rfl⟩ := List.mem_map.mp hb
        have hp' : p ∈ articles.zip scores := List.mem_of_mem_filter hp
        have : p.1 ∈ articles := (List.of_mem_zip hp').1
        rw [hasLink_setScore]
        exact hlink p.1 this
      · intro l _
        rfl
    · rw [hfa]
      exact (dedupByLink_sublist _ _).trans (thresholdKeep_sublist _ _)

/-- Witness for C1 at the spec's end-to-end scenario: three candidates
with similarities 0.8, 0.2, 0.5 and threshold 0.4. -/
theorem filter_articles_threshold_dedup_order_witness :
    (∀ a ∈ [wa1, wa2, wa3], hasLink a = true)
      ∧ [mkRat 8 10, mkRat 2 10, mkRat 5 10].length = [wa1, wa2, wa3].length
      ∧ (filter_articles [wa1, wa2, wa3] (some [1]) true
            [mkRat 8 10, mkRat 2 10, mkRat 5 10] (mkRat 4 10)
          = vigilSpec [wa1, wa2, wa3] [mkRat 8 10, mkRat 2 10, mkRat 5 10] (mkRat 4 10)
        ∧ (filter_articles [wa1, wa2, wa3] (some [1]) true
            [mkRat 8 10, mkRat 2 10, mkRat 5 10] (mkRat 4 10)).Sublist
            (([wa1, wa2, wa3].zip [mkRat 8 10, mkRat 2 10, mkRat 5 10]).map
              fun p => setScore p.1 p.2)) :=
  ⟨by decide, by decide,
    filter_articles_threshold_dedup_order [wa1, wa2, wa3]
      [mkRat 8 10, mkRat 2 10, mkRat 5 10] [1] (mkRat 4 10) (by decide) (by decide)⟩


end Vigil

namespace Archivum

theorem archiveHasLink_append (ar : Archive) (row : SeenRow) (l : String) :
    archiveHasLink (ar ++ [row]) l = (archiveHasLink ar l || row.link == some l) := by
  simp [archiveHasLink, List.any_append]

theorem archiveHasLink_insertIgnore_mono (ar : Archive) (row : SeenRow) (l : String)
    (h : archiveHasLink ar l = true) : archiveHasLink (insertIgnore ar row) l = true := by
  rw [insertIgnore]
  by_cases ht : row.title = none
  · rw [if_pos ht]; exact h
  · rw [if_neg ht]
    match row.link with
    | some l' =>
      show archiveHasLink (if archiveHasLink ar l' = true then ar else ar ++ [row]) l = true
      by_cases hm : archiveHasLink ar l' = true
      · rw [if_pos hm]; exact h
      · rw [if_neg hm, archiveHasLink_append, h, Bool.true_or]
    | none =>
      show archiveHasLink (ar ++ [row]) l = true
      rw [archiveHasLink_append, h, Bool.true_or]

theorem archiveHasLink_add_mono (results : List AnalysisResult) :
    ∀ (ar : Archive) (l : String), archiveHasLink ar l = true →
      archiveHasLink (add_articles_to_archive ar results) l = true := by
  induction results with
  | nil => intro ar l h; exact h
  | cons r rest ih =>
    intro ar l h
    exact ih (insertIgnore ar (rowOf r)) l (archiveHasLink_insertIgnore_mono ar (rowOf r) l h)

theorem archiveHasLink_insertIgnore_self (ar : Archive) (row : SeenRow) (l : String)
    (hl : row.link = some l) (ht : row.title ≠ none) :
    archiveHasLink (insertIgnore ar row) l = true := by
  rw [insertIgnore, if_neg ht, hl]
  show archiveHasLink (if archiveHasLink ar l = true then ar else ar ++ [row]) l = true
  by_cases hm : archiveHasLink ar l = true
  · rw [if_pos hm]; exact hm
  · rw [if_neg hm, archiveHasLink_append, hl]
    simp

theorem archiveHasLink_add_of_mem (results : List AnalysisResult) :
    ∀ (ar : Archive) (r : AnalysisResult) (l : String), r ∈ results → r.link = some l →
      r.title ≠ none → archiveHasLink (add_articles_to_archive ar results) l = true := by
  induction results with
  | nil => intro _ _ _ hr; cases hr
  | cons r0 rest ih =>
    intro ar r l hr hl ht
    rcases List.mem_cons.mp hr with rfl | hr'
    · exact archiveHasLink_add_mono rest (insertIgnore ar (rowOf r)) l
        (archiveHasLink_insertIgnore_self ar (rowOf r) l hl ht)
    · exact ih (insertIgnore ar (rowOf r0)) r l hr' hl ht

theorem keepNew_eq_filter (existing : List String) :
    ∀ (cs : List Candidate), (∀ c ∈ cs, hasStrLink c = true) →
      keepNew existing cs
        = .ok (cs.filter fun c =>
            match c.link with
            | some (some l) => !(existing.contains l)
            | _ => true) := by
  intro cs
  induction cs with
  | nil => intro _; rfl
  | cons c rest ih =>
    intro h
    have hc : hasStrLink c = true := h c (by simp)
    have hrest := fun b hb => h b (List.mem_cons_of_mem c hb)
    match hcl : c.link with
    | none => rw [hasStrLink, hcl] at hc; cases hc
    | some none => rw [hasStrLink, hcl] at hc; cases hc
    | some (some l) =>
      simp only [keepNew, hcl, ih hrest, Except.map, List.filter_cons]
      cases hm : existing.contains l with
      | true => simp
      | false => simp

theorem keepNew_error_of_missing (existing : List String) :
    ∀ (cs : List Candidate), (∃ c ∈ cs, c.link = none) →
      keepNew existing cs = .error () := by
  intro cs
  induction cs with
  | nil => rintro ⟨c, hc, -⟩; cases hc
  | cons c rest ih =>
    rintro ⟨c', hc', hl'⟩
    rcases List.mem_cons.mp hc' with rfl | hmem
    · rw [keepNew, hl']
    · match hcl : c.link with
      | none => rw [keepNew, hcl]
      | some lv =>
        rw [keepNew, hcl, ih ⟨c', hmem, hl'⟩]
        rfl

theorem keepNew_ok_of_keyed (existing : List String) :
    ∀ (cs : List Candidate), (∀ c ∈ cs, c.link ≠ none) →
      ∃ out, keepNew existing cs = .ok out := by
  intro cs
  induction cs with
  | nil => intro _; exact ⟨[], rfl⟩
  | cons c rest ih =>
    intro h
    obtain ⟨out, hout⟩ := ih fun b hb => h b (List.mem_cons_of_mem c hb)
    match hcl : c.link with
    | none => exact absurd hcl (h c (by simp))
    | some none =>
      refine ⟨c :: out, ?_⟩
      rw [keepNew, hcl, hout]
      rfl
    | some (some l) =>
      rw [keepNew, hcl, hout]
      by_cases hm : existing.contains l = true
      · exact ⟨out, by simp [Except.map, List.elem_iff.mp hm]⟩
      · have hnm : l ∉ existing := fun hmem => hm (List.elem_iff.mpr hmem)
        exact ⟨c :: out, by simp [Except.map, hnm]⟩

theorem mem_checked_links (articles : List Candidate) (c : Candidate) (l : String)
    (hc : c ∈ articles) (hl : c.link = some (some l)) :
    l ∈ (articles.filterMap fun c => c.link).filterMap id :=
  List.mem_filterMap.mpr ⟨some l, List.mem_filterMap.mpr ⟨c, hc, hl⟩, rfl⟩

theorem existing_contains_eq (ar : Archive) (articles : List Candidate) (c : Candidate)
    (l : String) (hc : c ∈ articles) (hl : c.link = some (some l)) :
    (((articles.filterMap fun c => c.link).filterMap id).filter
        fun l => archiveHasLink ar l).contains l = archiveHasLink ar l := by
  by_cases hal : archiveHasLink ar l = true
  · rw [hal]
    exact List.elem_iff.mpr
      (List.mem_filter.mpr ⟨mem_checked_links articles c l hc hl, hal⟩)
  · rw [Bool.eq_false_iff.mpr hal]
    rw [← Bool.not_eq_true]
    intro hcontra
    exact hal (List.mem_filter.mp (List.elem_iff.mp hcontra)).2

theorem filter_new_eq_filter (ar : Archive) (articles : List Candidate)
    (h : ∀ c ∈ articles, hasStrLink c = true) :
    filter_new_articles ar true articles
      = .ok (articles.filter fun c => candidateNew ar c) := by
  match articles with
  | [] => rfl
  | c0 :: rest =>
    have hc0 : hasStrLink c0 = true := h c0 (by simp)
    have hne : ((c0 :: rest).filterMap fun c => c.link).isEmpty = false := by
      match hcl : c0.link with
      | none => rw [hasStrLink, hcl] at hc0; cases hc0
      | some lv => simp [List.filterMap_cons, hcl]
    rw [filter_new_articles]
    rw [if_neg (by simp), if_neg (by simp [hne]), if_pos rfl]
    rw [keepNew_eq_filter _ _ h]
    refine congrArg Except.ok (List.filter_congr ?_)
    intro c hc
    have hx := h c hc
    match hcl : c.link with
    | none => rw [hasStrLink, hcl] at hx; cases hx
    | some none => rw [hasStrLink, hcl] at hx; cases hx
    | some (some l) =>
      simp only [candidateNew, hcl]
      rw [existing_contains_eq ar (c0 :: rest) c l hc hcl]

/-- C4: for every candidate batch whose articles all carry a string
link, when the store read succeeds `filter_new_articles` returns
exactly the articles whose link is absent from the store, in input
order; and an empty batch yields the empty list for every store and
read outcome (the store is never consulted). -/
theorem filter_new_articles_keeps_exactly_absent (ar : Archive) (articles : List Candidate)
    (h : ∀ c ∈ articles, hasStrLink c = true) :
    filter_new_articles ar true articles
        = .ok (articles.filter fun c => candidateNew ar c)
      ∧ ∀ (ar' : Archive) (b : Bool), filter_new_articles ar' b [] = .ok [] :=
  ⟨filter_new_eq_filter ar articles h, fun _ _ => rfl⟩

/-- Witness for C4 at the spec scenario: the archive contains
http://a.com, the candidates are http://a.com and http://c.com, and
only http://c.com survives. -/
theorem filter_new_articles_keeps_exactly_absent_witness :
    (∀ c ∈ [Candidate.mk (some (some "http://a.com")), Candidate.mk (some (some "http://c.com"))],
        hasStrLink c = true)
      ∧ (filter_new_articles wArchive true
            [Candidate.mk (some (some "http://a.com")), Candidate.mk (some (some "http://c.com"))]
          = .ok ([Candidate.mk (some (some "http://a.com")),
              Candidate.mk (some (some "http://c.com"))].filter
                fun c => candidateNew wArchive c)
        ∧ ∀ (ar' : Archive) (b : Bool), filter_new_articles ar' b [] = .ok []) :=
  ⟨by decide,
    filter_new_articles_keeps_exactly_absent wArchive
      [Candidate.mk (some (some "http://a.com")), Candidate.mk (some (some "http://c.com"))]
      (by decide)⟩

/-- C10: mixing keyed and keyless candidates makes the archive check
raise `KeyError` when the read succeeds; an all-keyless non-empty batch
returns the empty list for every store and read outcome; an all-keyed
batch never raises. -/
theorem filter_new_articles_partial_keys (ar : Archive) (articles : List Candidate) :
    ((∃ c ∈ articles, c.link ≠ none) → (∃ c ∈ articles, c.link = none) →
        filter_new_articles ar true articles = .error ())
      ∧ (articles ≠ [] → (∀ c ∈ articles, c.link = none) →
          ∀ (ar' : Archive) (b : Bool), filter_new_articles ar' b articles = .ok [])
      ∧ ((∀ c ∈ articles, c.link ≠ none) →
          ∃ out, filter_new_articles ar true articles = .ok out) := by
  refine ⟨?_, ?_, ?_⟩
  · rintro ⟨c0, hc0, h0⟩ ⟨c1, hc1, h1⟩
    obtain ⟨lv, hlv⟩ := Option.ne_none_iff_exists'.mp h0
    have hemp : articles.isEmpty = false := by
      cases articles
      · cases hc0
      · rfl
    have hne : (articles.filterMap fun c => c.link).isEmpty = false := by
      have : lv ∈ articles.filterMap fun c => c.link :=
        List.mem_filterMap.mpr ⟨c0, hc0, hlv⟩
      rcases hfm : articles.filterMap fun c => c.link with _ | _
      · rw [hfm] at this; cases this
      · rw [hfm]; rfl
    rw [filter_new_articles, if_neg (by simp [hemp]), if_neg (by simp [hne]), if_pos rfl]
    exact keepNew_error_of_missing _ articles ⟨c1, hc1, h1⟩
  · intro hne hall ar' b
    have : (articles.filterMap fun c => c.link) = [] :=
      List.filterMap_eq_nil_iff.mpr hall
    rw [filter_new_articles, this]
    by_cases hemp : articles.isEmpty = true
    · rw [if_pos hemp]
    · rw [if_neg hemp]
      rfl
  · intro hall
    by_cases hemp : articles.isEmpty = true
    · exact ⟨[], by rw [filter_new_articles, if_pos hemp]⟩
    · by_cases hfm : ((articles.filterMap fun c => c.link).isEmpty = true)
      · exact ⟨[], by rw [filter_new_articles, if_neg hemp, if_pos hfm]⟩
      · obtain ⟨out, hout⟩ := keepNew_ok_of_keyed
          (((articles.filterMap fun c => c.link).filterMap id).filter
            fun l => archiveHasLink ar l) articles hall
        exact ⟨out, by rw [filter_new_articles, if_neg hemp, if_neg hfm, if_pos rfl, hout]⟩

/-- Witness for C10: the batch mixing a keyed candidate with a keyless
one raises `KeyError`. -/
theorem filter_new_articles_partial_keys_witness :
    filter_new_articles [] true [Candidate.mk (some (some "http://a.com")), Candidate.mk none]
      = .error () :=
  (filter_new_articles_partial_keys []
      [Candidate.mk (some (some "http://a.com")), Candidate.mk none]).1
    ⟨Candidate.mk (some (some "http://a.com")), by simp⟩
    ⟨Candidate.mk none, by simp⟩

/-- Counterexample to C2 as stated: an analysis record that carries a
link but no title is skipped by `INSERT OR IGNORE` (NOT NULL violation
on `title`), so recording it leaves the store unchanged and a
subsequent `filter_new_articles` over the same link returns the
candidate rather than the empty list. -/
theorem archive_record_no_title_counterexample :
    add_articles_to_archive [] [noTitleResult] = []
      ∧ noTitleResult.link = some "http://a.com"
      ∧ filter_new_articles (add_articles_to_archive [] [noTitleResult]) true
          [noTitleCandidate] = .ok [noTitleCandidate] :=
  ⟨rfl, rfl, rfl⟩

theorem insertIgnore_seen (ar : Archive) (r : AnalysisResult)
    (h : recordSeen ar r = true) : insertIgnore ar (rowOf r) = ar := by
  match hl : r.link with
  | none => rw [recordSeen, hl] at h; cases h
  | some l =>
    rw [recordSeen, hl] at h
    have h' : archiveHasLink ar l = true := h
    rw [insertIgnore]
    by_cases ht : (rowOf r).title = none
    · rw [if_pos ht]
    · rw [if_neg ht]
      have hlink : (rowOf r).link = some l := hl
      rw [hlink]
      show (if archiveHasLink ar l = true then ar else ar ++ [rowOf r]) = ar
      rw [if_pos h']

theorem add_articles_all_seen : ∀ (results : List AnalysisResult) (ar : Archive),
    (∀ r ∈ results, recordSeen ar r = true) → add_articles_to_archive ar results = ar := by
  intro results
  induction results with
  | nil => intro ar _; rfl
  | cons r rest ih =>
    intro ar h
    rw [add_articles_to_archive, List.foldl_cons, insertIgnore_seen ar r (h r (by simp))]
    exact ih ar fun r' hr' => h r' (List.mem_cons_of_mem r hr')

/-- C2 (amended): for every batch of analysis records that each carry a
link and a title, recording then filtering the same links yields the
empty list; recording records whose links already exist is a silent
no-op leaving the store unchanged; and two filterNew calls on the same
state and input return the same output. -/
theorem archive_record_then_filter_new (ar : Archive) (results : List AnalysisResult)
    (hcomp : ∀ r ∈ results, resultComplete r = true) :
    filter_new_articles (add_articles_to_archive ar results) true (results.map candidateOf)
        = .ok []
      ∧ ((∀ r ∈ results, recordSeen ar r = true) → add_articles_to_archive ar results = ar)
      ∧ filter_new_articles ar true (results.map candidateOf)
          = filter_new_articles ar true (results.map candidateOf) := by
  refine ⟨?_, ?_, rfl⟩
  · have hkey : ∀ c ∈ results.map candidateOf, hasStrLink c = true := by
      intro c hc
      obtain ⟨r, hr, rfl⟩ := List.mem_map.mp hc
      have := hcomp r hr
      rw [resultComplete, Bool.and_eq_true, Option.isSome_iff_exists] at this
      obtain ⟨⟨l, hl⟩, -⟩ := this
      rw [hasStrLink, candidateOf, hl]
    rw [filter_new_eq_filter _ _ hkey]
    refine congrArg Except.ok (List.filter_eq_nil_iff.mpr ?_)
    intro c hc
    obtain ⟨r, hr, rfl⟩ := List.mem_map.mp hc
    have hcr := hcomp r hr
    rw [resultComplete, Bool.and_eq_true, Option.isSome_iff_exists] at hcr
    obtain ⟨⟨l, hl⟩, ht⟩ := hcr
    have htitle : r.title ≠ none := by
      rw [Option.isSome_iff_exists] at ht
      obtain ⟨t, htt⟩ := ht
      simp [htt]
    have hseen : archiveHasLink (add_articles_to_archive ar results) l = true :=
      archiveHasLink_add_of_mem results ar r l hr hl htitle
    show ¬ candidateNew (add_articles_to_archive ar results) (candidateOf r) = true
    rw [candidateOf, hl]
    show ¬ (!archiveHasLink (add_articles_to_archive ar results) l) = true
    rw [hseen]
    simp
  · exact fun hseen => add_articles_all_seen results ar hseen

/-- Witness for C2 at a store already holding the record-s link: the
record is complete, its link is seen, recording is a no-op, and the
subsequent filterNew over the same link is empty. -/
theorem archive_record_then_filter_new_witness :
    (∀ r ∈ [wRes], resultComplete r = true)
      ∧ (∀ r ∈ [wRes], recordSeen wArchive r = true)
      ∧ filter_new_articles (add_articles_to_archive wArchive [wRes]) true
          ([wRes].map candidateOf) = .ok []
      ∧ add_articles_to_archive wArchive [wRes] = wArchive :=
  ⟨by decide, by decide,
    (archive_record_then_filter_new wArchive [wRes] (by decide)).1,
    (archive_record_then_filter_new wArchive [wRes] (by decide)).2.1 (by decide)⟩

end Archivum

namespace Scout

theorem truncate400_of_le (s : String) (h : s.length ≤ 400) : truncate400 s = s := by
  rw [truncate400, if_neg]
  omega

theorem truncate400_of_gt (s : String) (h : 400 < s.length) :
    truncate400 s = String.mk (s.data.take 400) ++ "..." := by
  rw [truncate400, if_pos]
  omega

theorem length_mk_take_append (s : String) :
    (String.mk (s.data.take 400) ++ "...").length = min 400 s.length + 3 := by
  have h1 : (String.mk (s.data.take 400) ++ "...").length
      = (String.mk (s.data.take 400)).length + ("..." : String).length :=
    String.length_append _ _
  have h2 : (String.mk (s.data.take 400)).length = (s.data.take 400).length := rfl
  have h3 : (s.data.take 400).length = min 400 s.data.length := List.length_take _ _
  have h4 : s.length = s.data.length := rfl
  rw [h1, h2, h3]
  rw [h4]
  rfl

theorem truncate400_length_le (s : String) : (truncate400 s).length ≤ 403 := by
  rw [truncate400]
  by_cases h : s.length > 400
  · rw [if_pos h, length_mk_take_append]
    omega
  · rw [if_neg h]
    omega

/-- C8 (amended): the extracted summary prefers rich content over short
summary over raw description, but markup stripping and the ~400
character truncation — ellipsis appended exactly when truncation
occurred — apply only when the rich-content branch supplies the text;
the summary and description fallbacks are returned verbatim and
unbounded. -/
theorem extract_summary_branches (strip : String → String) (e : Entry) :
    (∀ txt, contentText strip e = some txt →
        _extract_summary strip e = truncate400 txt
          ∧ (_extract_summary strip e).length ≤ 403
          ∧ (txt.length ≤ 400 → _extract_summary strip e = txt)
          ∧ (400 < txt.length →
              _extract_summary strip e = String.mk (txt.data.take 400) ++ "..."))
      ∧ (contentText strip e = none → _extract_summary strip e = summaryFallback e) := by
  constructor
  · intro txt htxt
    match hc : e.content with
    | none => simp only [contentText, hc] at htxt; cases htxt
    | some [] => simp only [contentText, hc] at htxt; cases htxt
    | some (c :: rest) =>
      simp only [contentText, hc] at htxt
      by_cases hs : strip c.value ≠ ""
      · rw [if_pos hs] at htxt
        injection htxt with htxt
        subst htxt
        have heq : _extract_summary strip e = truncate400 (strip c.value) := by
          simp only [_extract_summary, hc]
          rw [if_pos hs]
        refine ⟨heq, ?_, ?_, ?_⟩
        · rw [heq]; exact truncate400_length_le _
        · intro hle; rw [heq]; exact truncate400_of_le _ hle
        · intro hgt; rw [heq]; exact truncate400_of_gt _ hgt
      · rw [if_neg hs] at htxt; cases htxt
  · intro hnone
    match hc : e.content with
    | none => simp only [_extract_summary, hc]
    | some [] => simp only [_extract_summary, hc]
    | some (c :: rest) =>
      simp only [contentText, hc] at hnone
      by_cases hs : strip c.value ≠ ""
      · rw [if_pos hs] at hnone; cases hnone
      · simp only [_extract_summary, hc]
        rw [if_neg hs]

/-- Witness for C8: a rich-content entry whose stripped text is short
comes back verbatim from the content branch. -/
theorem extract_summary_branches_witness :
    _extract_summary (fun _ => "hi") wEntry = "hi" :=
  (((extract_summary_branches (fun _ => "hi") wEntry).1 "hi" rfl).2.2.1 (by decide))

/-- Counterexample to C8 as stated: with no rich content the summary
field is returned verbatim — this 500-character summary comes back
unstripped and untruncated, with no ellipsis, exceeding the
~400-character bound that the claim asserts for whichever field
supplies the text. -/
theorem extract_summary_verbatim_counterexample :
    _extract_summary (fun s => s) longSummaryEntry = longSummary
      ∧ longSummary.length = 500
      ∧ 403 < (_extract_summary (fun s => s) longSummaryEntry).length := by
  have h1 : _extract_summary (fun s => s) longSummaryEntry = longSummary := rfl
  have h2 : longSummary.length = 500 := by
    have hl : longSummary.length = (List.replicate 500 'a').length := rfl
    rw [hl, List.length_replicate]
  refine ⟨h1, h2, ?_⟩
  rw [h1, h2]
  omega

/-- C5: a timeout, network error, or malformed-document failure of one
source yields the empty list for that source only: the failed task
contributes nothing and removing it leaves the aggregation unchanged,
so the aggregator still returns the union of all other sources-s items;
the embedded aggregator is total (it never raises). -/
theorem run_scout_isolates_failures (strip : String → String) (cutoff : Int)
    (pre post : List SourceTask) (t : SourceTask) (h : taskFailed t = true) :
    runTask strip cutoff t = []
      ∧ run_scout strip cutoff (pre ++ t :: post)
          = run_scout strip cutoff (pre ++ post) := by
  have hempty : runTask strip cutoff t = [] := by
    match t with
    | .rss src .timeoutErr => rfl
    | .rss src .clientErr => rfl
    | .rss src (.fetched feed) =>
      have hb : feed.bozo = true := h
      simp [runTask, fetch_from_rss, hb]
    | .github repo .timeoutErr => rfl
    | .github repo .clientErr => rfl
    | .github repo .badJson => rfl
    | .github repo (.fetched rels) => simp [taskFailed] at h
  refine ⟨hempty, ?_⟩
  simp [run_scout, hempty]

/-- Witness for C5: a timed-out feed between two healthy sources
contributes nothing. -/
theorem run_scout_isolates_failures_witness :
    runTask (fun s => s) 0 (SourceTask.rss "http://f.example/rss" RssOutcome.timeoutErr) = []
      ∧ run_scout (fun s => s) 0
          ([wTask1] ++ SourceTask.rss "http://f.example/rss" RssOutcome.timeoutErr :: [wTask2])
          = run_scout (fun s => s) 0 ([wTask1] ++ [wTask2]) :=
  run_scout_isolates_failures (fun s => s) 0 [wTask1] [wTask2]
    (SourceTask.rss "http://f.example/rss" RssOutcome.timeoutErr) rfl

end Scout

namespace Transport

/-- Counterexample to C7 as stated: the code matches skip substrings
against the netloc (host and port), not the host — the skip entry
"8080" disables verification for http://example.com:8080/x although the
host example.com does not contain it. -/
theorem ssl_skip_matches_port_counterexample :
    should_verify_ssl_for_url "http://example.com:8080/x" ["8080"] = SSLDecision.unverified
      ∧ substrOf ("8080".data) (urlHost "http://example.com:8080/x") = false
      ∧ urlHost "http://example.com:8080/x" = "example.com".data :=
  ⟨rfl, rfl, rfl⟩

/-- C7 (amended): the transport policy returns the unverified signal
iff the skip list is non-empty, the URL parses, and its netloc (the
authority component: host with optional userinfo and port, case
preserved) contains some configured skip substring; on URL-parse
failure it returns the verified context. -/
theorem ssl_decision_iff_netloc_match (url : String) (skips : List String) :
    (should_verify_ssl_for_url url skips = SSLDecision.unverified
        ↔ ¬ skips.isEmpty = true
            ∧ ∃ netloc, parseNetloc url = .ok netloc
                ∧ ∃ d ∈ skips, substrOf d.data netloc = true)
      ∧ (parseNetloc url = .error () →
          should_verify_ssl_for_url url skips = SSLDecision.verified) := by
  constructor
  · by_cases hs : skips.isEmpty = true
    · have hval : should_verify_ssl_for_url url skips = SSLDecision.verified := by
        rw [should_verify_ssl_for_url, if_pos hs]
      rw [hval]
      constructor
      · intro hcontra; cases hcontra
      · rintro ⟨hns, -⟩; exact absurd hs hns
    · cases hp : parseNetloc url with
      | error e =>
        have hval : should_verify_ssl_for_url url skips = SSLDecision.verified := by
          rw [should_verify_ssl_for_url, if_neg hs, hp]
        rw [hval]
        constructor
        · intro hcontra; cases hcontra
        · rintro ⟨-, netloc, hn, -⟩
          cases hn
      | ok netloc =>
        have hval : should_verify_ssl_for_url url skips
            = if (skips.any fun d => substrOf d.data netloc) = true then
                SSLDecision.unverified
              else SSLDecision.verified := by
          rw [should_verify_ssl_for_url, if_neg hs, hp]
        rw [hval]
        by_cases ha : (skips.any fun d => substrOf d.data netloc) = true
        · rw [if_pos ha]
          constructor
          · intro _; exact ⟨hs, netloc, rfl, List.any_eq_true.mp ha⟩
          · intro _; rfl
        · rw [if_neg ha]
          constructor
          · intro hcontra; cases hcontra
          · rintro ⟨-, netloc', hn, d, hd, hsub⟩
            injection hn with hn
            subst hn
            exact absurd (List.any_eq_true.mpr ⟨d, hd, hsub⟩) ha
  · intro hp
    rw [should_verify_ssl_for_url]
    by_cases hs : skips.isEmpty = true
    · rw [if_pos hs]
    · rw [if_neg hs, hp]

/-- Witness for C7: a malformed IPv6 URL makes the parse fail and the
policy default to the verified context. -/
theorem ssl_decision_iff_netloc_match_witness :
    should_verify_ssl_for_url "http://[::1" ["x"] = SSLDecision.verified :=
  (ssl_decision_iff_netloc_match "http://[::1" ["x"]).2 rfl

end Transport

namespace Speculator

/-- Counterexample to C6 as stated: the response is a parseable JSON
object whose `is_relevant` is the string "false" — not set true — yet
the item is accepted, because line 116 of speculator.py tests Python
truthiness of the field rather than comparing it with True. -/
theorem analyze_accepts_truthy_counterexample :
    (_analyze_single_article ⟨"T", "S", "http://x/1"⟩ (some "text")
        (.response "\x7b\"is_relevant\": \"false\"\x7d")).isSome = true
      ∧ _parse_llm_json_response "\x7b\"is_relevant\": \"false\"\x7d"
          = some (Json.obj [("is_relevant", Json.str "false")]) :=
  ⟨rfl, rfl⟩

/-- C6 (amended): for a fetched text and a raw chain response, the item
is accepted iff the extraction of speculator.py line 70 (leftmost
fenced ```json block, else bare brace-delimited snippet) decodes to a
non-empty JSON object whose `is_relevant` value is truthy; every other
response — no snippet, undecodable snippet, falsy object, absent or
falsy `is_relevant` — yields a discard (`none` for that item), never an
error raised out of the batch. -/
theorem analyze_accepts_iff_truthy_is_relevant (art : SpecArticle) (text raw : String)
    (htext : text ≠ "") :
    (_analyze_single_article art (some text) (.response raw)).isSome = true
      ↔ ∃ pj, _parse_llm_json_response raw = some pj
          ∧ pj.truthy = true ∧ truthyField pj "is_relevant" = true := by
  have ht : (text == "") = false := beq_eq_false_iff_ne.mpr htext
  have hdrop : _analyze_single_article art (some text) (.response raw)
      = match _parse_llm_json_response raw with
        | none => none
        | some pj =>
          if pj.truthy && truthyField pj "is_relevant" then
            some ⟨art.title, art.link, pj⟩
          else none := by
    have hkey : _analyze_single_article art (some text) (.response raw)
        = if text == "" then none
          else match _parse_llm_json_response raw with
            | none => none
            | some pj =>
              if pj.truthy && truthyField pj "is_relevant" then
                some ⟨art.title, art.link, pj⟩
              else none := rfl
    rw [hkey, ht]
    rfl
  cases hp : _parse_llm_json_response raw with
  | none =>
    rw [hdrop, hp]
    simp
  | some pj =>
    rw [hdrop, hp]
    show (if pj.truthy && truthyField pj "is_relevant" then
        some (⟨art.title, art.link, pj⟩ : AnalysisRecord) else none).isSome = true
      ↔ ∃ pj', some pj = some pj'
          ∧ pj'.truthy = true ∧ truthyField pj' "is_relevant" = true
    by_cases hb : (pj.truthy && truthyField pj "is_relevant") = true
    · rw [if_pos hb]
      rw [Bool.and_eq_true] at hb
      constructor
      · intro _; exact ⟨pj, rfl, hb.1, hb.2⟩
      · intro _; rfl
    · rw [if_neg hb]
      constructor
      · intro hcontra; exact absurd hcontra (by simp)
      · rintro ⟨pj', hpj', h1, h2⟩
        injection hpj' with h
        subst h
        refine absurd ?_ hb
        rw [h1, h2]
        rfl

/-- Witness for C6 at the spec scenario: a fenced response with
`is_relevant` false is discarded, not an error. -/
theorem analyze_accepts_iff_truthy_is_relevant_witness :
    ((_analyze_single_article ⟨"T", "S", "http://x/1"⟩ (some "x")
        (.response "```json\n\x7b\"is_relevant\": false\x7d\n```")).isSome = true
      ↔ ∃ pj, _parse_llm_json_response "```json\n\x7b\"is_relevant\": false\x7d\n```"
          = some pj ∧ pj.truthy = true ∧ truthyField pj "is_relevant" = true) :=
  analyze_accepts_iff_truthy_is_relevant ⟨"T", "S", "http://x/1"⟩ "x"
    "```json\n\x7b\"is_relevant\": false\x7d\n```" (by decide)

theorem countP_set_balance (p : TaskPhase → Bool) :
    ∀ (l : List TaskPhase) (i : Nat) (a b : TaskPhase), l.get? i = some a →
      (l.set i b).countP p + (if p a then 1 else 0)
        = l.countP p + (if p b then 1 else 0) := by
  intro l
  induction l with
  | nil => intro i a b h; cases h
  | cons x xs ih =>
    intro i a b h
    match i with
    | 0 =>
      injection h with hx
      subst hx
      simp only [List.set, List.countP_cons]
      omega
    | i + 1 =>
      have hih := ih i a b h
      simp only [List.set, List.countP_cons]
      omega

theorem countP_replicate_waiting (n : Nat) :
    (List.replicate n TaskPhase.waiting).countP (fun p => p == TaskPhase.inflight) = 0 := by
  induction n with
  | zero => rfl
  | succ m ih => simp [List.replicate_succ, List.countP_cons, ih]

theorem gate_step_preserves (s t : GateState) (hstep : GateStep s t) (k : Nat)
    (h : s.sem + inflightCount s = k) : t.sem + inflightCount t = k := by
  cases hstep with
  | acquire i hi hs =>
    have hbal := countP_set_balance (fun p => p == TaskPhase.inflight)
      s.tasks i .waiting .inflight hi
    simp only [inflightCount] at *
    simp only [show (TaskPhase.waiting == TaskPhase.inflight) = false from rfl,
      show (TaskPhase.inflight == TaskPhase.inflight) = true from rfl,
      Bool.false_eq_true, if_false, if_true] at hbal
    omega
  | release i hi =>
    have hbal := countP_set_balance (fun p => p == TaskPhase.inflight)
      s.tasks i .inflight .done hi
    simp only [inflightCount] at *
    simp only [show (TaskPhase.inflight == TaskPhase.inflight) = true from rfl,
      show (TaskPhase.done == TaskPhase.inflight) = false from rfl,
      Bool.false_eq_true, if_false, if_true] at hbal
    omega

theorem reachable_sem_inflight (k n : Nat) (s : GateState) (h : Reachable k n s) :
    s.sem + inflightCount s = k := by
  induction h with
  | refl =>
    simp [initState, inflightCount, countP_replicate_waiting]
  | tail hsteps hstep ih =>
    exact gate_step_preserves _ _ hstep k ih

/-- C9: with gate capacity `k` and `n > k` submitted tasks, every state
the speculator run can reach under the semaphore semantics has at most
`k` tasks holding a slot (between acquisition and release)
simultaneously. -/
theorem speculator_gate_bound (k n : Nat) (_hkn : k < n) (s : GateState)
    (h : Reachable k n s) : inflightCount s ≤ k := by
  have := reachable_sem_inflight k n s h
  omega

/-- Witness for C9: capacity 1 with 2 tasks, after one acquisition. -/
theorem speculator_gate_bound_witness :
    inflightCount ⟨0, [TaskPhase.inflight, TaskPhase.waiting]⟩ ≤ 1 :=
  speculator_gate_bound 1 2 (by decide) ⟨0, [TaskPhase.inflight, TaskPhase.waiting]⟩
    (Relation.ReflTransGen.single
      (GateStep.acquire (initState 1 2) 0 rfl (by decide)))

end Speculator

/-- C3: the filters fail open on internal dependency failure —
`filter_articles` returns its input unchanged when the project context
lacks an embedding or when the embedding model fails to load, and
`filter_new_articles` returns its input unchanged when the store read
fails (for any batch that actually reaches the store, i.e. has at least
one article with a `'link'` key). -/
theorem filters_fail_open :
    (∀ (articles : List Vigil.Article) (scores : List ℚ) (load : Bool) (t : ℚ),
        Vigil.filter_articles articles none load scores t = articles)
      ∧ (∀ (articles : List Vigil.Article) (scores e : List ℚ) (t : ℚ),
          Vigil.filter_articles articles (some e) false scores t = articles)
      ∧ (∀ (ar : Archivum.Archive) (articles : List Archivum.Candidate),
          (∃ c ∈ articles, c.link ≠ none) →
          Archivum.filter_new_articles ar false articles = .ok articles) := by
  refine ⟨?_, ?_, ?_⟩
  · intro articles scores load t
    rw [Vigil.filter_articles]
    by_cases hemp : articles.isEmpty = true
    · rw [if_pos hemp, List.isEmpty_iff.mp hemp]
    · rw [if_neg hemp]
  · intro articles scores e t
    rw [Vigil.filter_articles]
    by_cases hemp : articles.isEmpty = true
    · rw [if_pos hemp, List.isEmpty_iff.mp hemp]
    · rw [if_neg hemp]
      rfl
  · rintro ar articles ⟨c0, hc0, h0⟩
    obtain ⟨lv, hlv⟩ := Option.ne_none_iff_exists'.mp h0
    have hemp : articles.isEmpty = false := by
      cases articles
      · cases hc0
      · rfl
    have hne : (articles.filterMap fun c => c.link).isEmpty = false := by
      have : lv ∈ articles.filterMap fun c => c.link :=
        List.mem_filterMap.mpr ⟨c0, hc0, hlv⟩
      rcases hfm : articles.filterMap fun c => c.link with _ | _
      · rw [hfm] at this; cases this
      · rw [hfm]; rfl
    rw [Archivum.filter_new_articles, if_neg (by simp [hemp]), if_neg (by simp [hne])]
    rfl

/-- Witness for C3: concrete fail-open instances for each clause. -/
theorem filters_fail_open_witness :
    Vigil.filter_articles [Vigil.wa1] none true [mkRat 8 10] (mkRat 4 10) = [Vigil.wa1]
      ∧ Vigil.filter_articles [Vigil.wa1] (some [1]) false [mkRat 8 10] (mkRat 4 10)
          = [Vigil.wa1]
      ∧ Archivum.filter_new_articles [] false [Archivum.noTitleCandidate]
          = .ok [Archivum.noTitleCandidate] :=
  ⟨filters_fail_open.1 [Vigil.wa1] [mkRat 8 10] true (mkRat 4 10),
    filters_fail_open.2.1 [Vigil.wa1] [mkRat 8 10] [1] (mkRat 4 10),
    filters_fail_open.2.2 [] [Archivum.noTitleCandidate]
      ⟨Archivum.noTitleCandidate, by simp, by simp [Archivum.noTitleCandidate]⟩⟩

end Legatus
